import Mathlib

/-!
Verification development for the `request` Go package (github.com/zorcal/request),
a fluent builder for outbound HTTP requests with a paired result-decoding wrapper.

The package is shallowly embedded: Go strings at byte-level boundaries become
`List Nat` (bytes), `http.Header` becomes a finite map from canonical keys to
ordered value lists, `time.Duration` becomes `Int` (nanoseconds), fallible
operations return `Except String`, and the external HTTP transport is a
parameter.  Mutation of the resolved client and the constructed request are
made observable by returning them from `Request.Do` as explicit outcome data.
-/

set_option maxHeartbeats 1000000

namespace RequestPkg

/-! ### Base64 (encoding/base64, StdEncoding with padding) -/

/-- The standard base64 alphabet used by Go's `base64.StdEncoding`. -/
def base64Alphabet : List Char :=
  "ABCDEFGHIJKLMNOPQRSTUVWXYZabcdefghijklmnopqrstuvwxyz0123456789+/".data

/-- Character at index `n` of the standard base64 alphabet. -/
def b64Char (n : Nat) : Char := base64Alphabet.getD n '='

/-- Embedding of `base64.StdEncoding.EncodeToString`: groups of three bytes
become four alphabet characters; a trailing group of one or two bytes is
padded with `=`.  Bytes are naturals below 256; the `% 64` keep the index in
range exactly as the bit masks in the Go implementation do. -/
def base64StdEncode : List Nat → String
  | [] => ""
  | [b0] =>
    String.mk [b64Char (b0 / 4 % 64), b64Char (b0 % 4 * 16), '=', '=']
  | [b0, b1] =>
    String.mk [b64Char (b0 / 4 % 64), b64Char ((b0 % 4 * 16 + b1 / 16) % 64),
      b64Char (b1 % 16 * 4 % 64), '=']
  | b0 :: b1 :: b2 :: rest =>
    String.mk [b64Char (b0 / 4 % 64), b64Char ((b0 % 4 * 16 + b1 / 16) % 64),
      b64Char ((b1 % 16 * 4 + b2 / 64) % 64), b64Char (b2 % 64)]
      ++ base64StdEncode rest

/-! ### Canonical MIME header keys (net/textproto) -/

/-- Embedding of textproto's `validHeaderFieldByte`: digits, letters and the
token punctuation bytes 33, 35, 36, 37, 38, 39, 42, 43, 45, 46, 94, 95, 96,
124, 126. -/
def validHeaderFieldByte (c : Char) : Bool :=
  let n := c.toNat
  (48 ≤ n && n ≤ 57) || (97 ≤ n && n ≤ 122) || (65 ≤ n && n ≤ 90) ||
  n == 33 || n == 35 || n == 36 || n == 37 || n == 38 || n == 39 || n == 42 ||
  n == 43 || n == 45 || n == 46 || n == 94 || n == 95 || n == 96 || n == 124 ||
  n == 126

/-- The canonicalization loop of `CanonicalMIMEHeaderKey`: uppercase a letter
that starts the key or follows a hyphen, lowercase every other letter.  The
boolean argument tracks whether the next letter starts a word. -/
def canonLoop : Bool → List Char → List Char
  | _, [] => []
  | upper, c :: rest =>
    let c1 : Char :=
      if upper && (97 ≤ c.toNat && c.toNat ≤ 122) then Char.ofNat (c.toNat - 32)
      else if !upper && (65 ≤ c.toNat && c.toNat ≤ 90) then Char.ofNat (c.toNat + 32)
      else c
    c1 :: canonLoop (c1 == '-') rest

/-- Embedding of `textproto.CanonicalMIMEHeaderKey` (also
`http.CanonicalHeaderKey`): if every byte is a valid header-field byte the key
is canonicalized word-wise, otherwise it is returned unchanged. -/
def canonicalMIMEHeaderKey (s : String) : String :=
  if s.data.all validHeaderFieldByte then String.mk (canonLoop true s.data) else s

/-! ### Headers (net/http `Header`, a map from canonical key to value list) -/

/-- A header collection: Go's `map[string][]string`, modelled as the lookup
function of the map (absent key means the empty list). -/
abbrev Header : Type := String → List String

/-- The empty header map, as built by `make(http.Header)`. -/
def Header.emptyMap : Header := fun _ => []

/-- Embedding of `Header.Set`: replace all values stored under the
canonicalized key with the single given value. -/
def Header.set (h : Header) (k v : String) : Header :=
  fun k0 => if k0 = canonicalMIMEHeaderKey k then [v] else h k0

/-- Embedding of `Header.Add`: append the value to those stored under the
canonicalized key. -/
def Header.add (h : Header) (k v : String) : Header :=
  fun k0 => if k0 = canonicalMIMEHeaderKey k then h k0 ++ [v] else h k0

/-- Embedding of `Header.Get`: first value stored under the canonicalized
key, or the empty string if none. -/
def Header.get (h : Header) (k : String) : String :=
  (h (canonicalMIMEHeaderKey k)).headD ""

/-- Embedding of `Header.Values`: all values stored under the canonicalized
key, in order. -/
def Header.values (h : Header) (k : String) : List String :=
  h (canonicalMIMEHeaderKey k)

/-! ### The request builder -/

/-- MIME type constant `jsonMIME` from the source. -/
def jsonMIME : String := "application/json"

/-- MIME type constant `xmlMIME` from the source. -/
def xmlMIME : String := "application/xml"

/-- `DefaultClientTimeout = time.Minute * 1`, in nanoseconds. -/
def DefaultClientTimeout : Int := 60000000000

/-- A request body source.  `WithBody` installs an arbitrary reader
(identified abstractly); `WithJSONBody` and `WithXMLBody` install the read
end of a pipe fed by the respective encoder of an abstract value. -/
inductive Body where
  | reader (id : Nat)
  | jsonPipe (v : Nat)
  | xmlPipe (v : Nat)
deriving DecidableEq

/-- The `Request` builder: header map, optional timeout override, optional
body source. -/
structure Request where
  header : Header
  timeout : Option Int
  body : Option Body

/-- `New` creates a builder with an empty header map and no timeout or body. -/
def New : Request :=
  { header := Header.emptyMap, timeout := none, body := none }

/-- An HTTP client as far as this package observes it: its `Timeout` field
(`time.Duration`, nanoseconds). -/
structure HTTPClient where
  Timeout : Int
deriving DecidableEq

/-- Modelled from the spec: the repository's `clientFromContext` helper (its
source file is not part of the provided sources; only its call site and the
public `AttachClientToContext` appear).  Per the spec, client resolution from
context returns the attached client if present, else a default client with
the fixed one-minute default timeout.  The context is modelled as the
optionally attached client. -/
def clientFromContext (ctx : Option HTTPClient) : HTTPClient :=
  match ctx with
  | some c => c
  | none => { Timeout := DefaultClientTimeout }

/-- The outgoing wire request built by `http.NewRequestWithContext` plus the
header assignment in `Request.Do`. -/
structure HTTPRequest where
  method : String
  url : String
  reqHeader : Header
  reqBody : Option Body

/-- An HTTP response as far as the result wrapper observes it: status code
and the outcome of reading its body stream to completion (`io.ReadAll`). -/
structure HTTPResponse where
  statusCode : Nat
  bodyRead : Except String (List Nat)

/-- Everything observable about one invocation of `Request.Do`: the response
or error, the state of the resolved client after the call (its timeout field
is mutated in place when an override is set), and the request handed to the
transport (`none` when request construction failed before any send). -/
structure DoOutcome where
  resp : Except String HTTPResponse
  clientAfter : HTTPClient
  sentRequest : Option HTTPRequest

/-- Embedding of `Request.Do`: build the wire request (construction may fail,
modelled by the `newReqErr` oracle for `http.NewRequestWithContext`), resolve
the client from the context, apply the timeout override to the resolved
client if one was set, and hand the request to the transport. -/
def Request.Do (r : Request) (ctx : Option HTTPClient) (method url : String)
    (newReqErr : Option String)
    (transport : HTTPRequest → HTTPClient → Except String HTTPResponse) :
    DoOutcome :=
  match newReqErr with
  | some e =>
    { resp := Except.error e, clientAfter := clientFromContext ctx,
      sentRequest := none }
  | none =>
    let req : HTTPRequest :=
      { method := method, url := url, reqHeader := r.header, reqBody := r.body }
    let c0 := clientFromContext ctx
    let c : HTTPClient :=
      match r.timeout with
      | some d => { c0 with Timeout := d }
      | none => c0
    { resp := transport req c, clientAfter := c, sentRequest := some req }

/-- `WithTimeout` records a timeout override. -/
def Request.WithTimeout (r : Request) (d : Int) : Request :=
  { r with timeout := some d }

/-- `WithBody` sets the body to an arbitrary reader; no header side effect. -/
def Request.WithBody (r : Request) (b : Nat) : Request :=
  { r with body := some (Body.reader b) }

/-- `WithJSONBody` sets the body to the read end of a pipe fed by the JSON
encoder of `v` and sets `Content-Type: application/json`. -/
def Request.WithJSONBody (r : Request) (v : Nat) : Request :=
  { r with body := some (Body.jsonPipe v),
           header := Header.set r.header "Content-Type" jsonMIME }

/-- `WithXMLBody` sets the body to the read end of a pipe fed by the XML
encoder of `v` and sets `Content-Type: application/xml`. -/
def Request.WithXMLBody (r : Request) (v : Nat) : Request :=
  { r with body := some (Body.xmlPipe v),
           header := Header.set r.header "Content-Type" xmlMIME }

/-- `WithHeader` replaces all values of the (canonicalized) key with one
value, via `Header.Set`. -/
def Request.WithHeader (r : Request) (key value : String) : Request :=
  { r with header := Header.set r.header key value }

/-- `WithMultiValuedHeader` appends a value under the (canonicalized) key,
via `Header.Add`. -/
def Request.WithMultiValuedHeader (r : Request) (key value : String) : Request :=
  { r with header := Header.add r.header key value }

/-- `WithContentType` sets the `Content-Type` header. -/
def Request.WithContentType (r : Request) (s : String) : Request :=
  { r with header := Header.set r.header "Content-Type" s }

/-- `WithAccept` sets the `Accept` header. -/
def Request.WithAccept (r : Request) (s : String) : Request :=
  { r with header := Header.set r.header "Accept" s }

/-- `WithBasicAuth`: the `Authorization` header becomes `Basic ` followed by
the standard base64 encoding of `username:password` (byte 58 is the colon).
Username and password are byte strings, as Go strings are. -/
def Request.WithBasicAuth (r : Request) (username password : List Nat) : Request :=
  let auth := username ++ 58 :: password
  { r with header := Header.set r.header "Authorization" ("Basic " ++ base64StdEncode auth) }

/-- `WithBearerAuthentication`: `Authorization` becomes `Bearer ` followed by
the token verbatim. -/
def Request.WithBearerAuthentication (r : Request) (token : String) : Request :=
  { r with header := Header.set r.header "Authorization" ("Bearer " ++ token) }

/-! ### The result wrapper -/

/-- `Result`: the response (body drained and closed) paired with the raw body
bytes. -/
structure Result where
  Response : HTTPResponse
  RawData : List Nat

/-- `WithResult`: optional underlying builder (`nil` possible if constructed
directly) and optional decode function.  The decode function returns the
decoding outcome; the decoded value itself is written through a caller
pointer in Go and is not observed here. -/
structure WithResult where
  req : Option Request
  unmarshal : Option (List Nat → Except String Unit)

/-- `Request.WithResult` wraps the builder with no decode function. -/
def Request.WithResult (r : Request) : RequestPkg.WithResult :=
  { req := some r, unmarshal := none }

/-- `Request.WithJSONResult`: set `Accept: application/json` unless an
`Accept` value is already present, and store a decode function wrapping
`json.Unmarshal` (modelled by the `dec` oracle) with the package's error
context. -/
def Request.WithJSONResult (r : Request) (dec : List Nat → Except String Unit) :
    RequestPkg.WithResult :=
  { req := some (if Header.get r.header "Accept" = "" then
      { r with header := Header.set r.header "Accept" jsonMIME } else r),
    unmarshal := some fun data =>
      match dec data with
      | Except.error e => Except.error ("request: unmarshal JSON: " ++ e)
      | Except.ok _ => Except.ok () }

/-- `Request.WithXMLResult`: same as `WithJSONResult` with XML. -/
def Request.WithXMLResult (r : Request) (dec : List Nat → Except String Unit) :
    RequestPkg.WithResult :=
  { req := some (if Header.get r.header "Accept" = "" then
      { r with header := Header.set r.header "Accept" xmlMIME } else r),
    unmarshal := some fun data =>
      match dec data with
      | Except.error e => Except.error ("request: unmarshal XML: " ++ e)
      | Except.ok _ => Except.ok () }

/-- Everything observable about one invocation of `WithResult.Do`: the result
or error, and whether the response body stream was closed during the call
(`false` when no response body was ever obtained). -/
structure WrapOutcome where
  result : Except String Result
  bodyClosed : Bool

/-- Embedding of `WithResult.Do`: fail if no underlying builder; delegate to
`Request.Do`; on success read the body to completion with the deferred close
applying to every later return path; wrap a read failure; run the decode
function if present and fail on its error; otherwise return response plus raw
bytes. -/
def WithResult.Do (wr : WithResult) (ctx : Option HTTPClient) (method url : String)
    (newReqErr : Option String)
    (transport : HTTPRequest → HTTPClient → Except String HTTPResponse) :
    WrapOutcome :=
  match wr.req with
  | none => { result := Except.error "request: missing request", bodyClosed := false }
  | some req =>
    match (req.Do ctx method url newReqErr transport).resp with
    | Except.error e => { result := Except.error e, bodyClosed := false }
    | Except.ok resp =>
      match resp.bodyRead with
      | Except.error e =>
        { result := Except.error ("request: read response body: " ++ e),
          bodyClosed := true }
      | Except.ok data =>
        match wr.unmarshal with
        | some f =>
          match f data with
          | Except.error e => { result := Except.error e, bodyClosed := true }
          | Except.ok _ =>
            { result := Except.ok { Response := resp, RawData := data },
              bodyClosed := true }
        | none =>
          { result := Except.ok { Response := resp, RawData := data },
            bodyClosed := true }

/-! ### Stub collaborators for concrete instantiations -/

/-- A transport stub: status 200 and the given body-read outcome, for any
request and client. -/
def constTransport (b : Except String (List Nat)) :
    HTTPRequest → HTTPClient → Except String HTTPResponse :=
  fun _ _ => Except.ok { statusCode := 200, bodyRead := b }

/-- A decode stub that always fails. -/
def decFail : List Nat → Except String Unit := fun _ => Except.error "bad"

/-! ### Call sequences over one builder -/

/-- Run a sequence of `WithHeader` calls, left to right. -/
def applyWithHeaderCalls (r : Request) (ps : List (String × String)) : Request :=
  ps.foldl (fun acc q => acc.WithHeader q.1 q.2) r

/-- Run a sequence of `WithMultiValuedHeader` calls, left to right. -/
def applyAddHeaderCalls (r : Request) (ps : List (String × String)) : Request :=
  ps.foldl (fun acc q => acc.WithMultiValuedHeader q.1 q.2) r

/-- One body-setting call on the builder. -/
inductive BodyCall where
  | withBody (b : Nat)
  | withJSONBody (v : Nat)
  | withXMLBody (v : Nat)

/-- Perform one body-setting call. -/
def applyBodyCall (r : Request) : BodyCall → Request
  | BodyCall.withBody b => r.WithBody b
  | BodyCall.withJSONBody v => r.WithJSONBody v
  | BodyCall.withXMLBody v => r.WithXMLBody v

/-- Run a sequence of body-setting calls, left to right. -/
def applyBodyCalls (r : Request) (cs : List BodyCall) : Request :=
  cs.foldl applyBodyCall r

/-- The body source a call installs. -/
def bodyOfCall : BodyCall → Body
  | BodyCall.withBody b => Body.reader b
  | BodyCall.withJSONBody v => Body.jsonPipe v
  | BodyCall.withXMLBody v => Body.xmlPipe v

/-- The `Content-Type` value a call installs, if any (`WithBody` installs
none). -/
def ctOfCall : BodyCall → Option String
  | BodyCall.withBody _ => none
  | BodyCall.withJSONBody _ => some jsonMIME
  | BodyCall.withXMLBody _ => some xmlMIME

/-- The `Content-Type` of the most recent call that sets one, else the
starting value `d`. -/
def lastCTFrom (d : String) (cs : List BodyCall) : String :=
  cs.foldl (fun acc c =>
    match ctOfCall c with
    | some m => m
    | none => acc) d

/-! ### Theorems -/

/-- C1: for every username and password (byte strings), `WithBasicAuth` sets
the builder's `Authorization` header to the literal `Basic ` followed by the
standard padded base64 encoding of the two inputs joined by a single colon
(byte 58); in particular, for `username`/`password` the header value is
exactly `Basic dXNlcm5hbWU6cGFzc3dvcmQ=`. -/
theorem withBasicAuth_authorization_header :
    (∀ (r : Request) (u p : List Nat),
      Header.get (r.WithBasicAuth u p).header "Authorization"
        = "Basic " ++ base64StdEncode (u ++ 58 :: p)) ∧
    Header.get ((New.WithBasicAuth ("username".data.map Char.toNat)
        ("password".data.map Char.toNat)).header) "Authorization"
      = "Basic dXNlcm5hbWU6cGFzc3dvcmQ=" := by
  constructor
  · intro r u p
    rfl
  · decide

/-- C2: `WithJSONResult` sets the wrapped builder's `Accept` header to
`application/json` exactly when no `Accept` value is currently set (its `Get`
read, first value or empty, is the empty string, matching the claim's notion
of a previously set non-empty value); when a non-empty `Accept` value is set
the builder is left entirely unchanged.  The last conjunct records that the
positive branch really makes a subsequent `Accept` read return
`application/json`. -/
theorem withJSONResult_accept_header (r : Request)
    (dec : List Nat → Except String Unit) :
    ((Header.get r.header "Accept" = "" →
       (r.WithJSONResult dec).req
         = some { r with header := Header.set r.header "Accept" jsonMIME }) ∧
     (Header.get r.header "Accept" ≠ "" →
       (r.WithJSONResult dec).req = some r)) ∧
    Header.get (Header.set r.header "Accept" jsonMIME) "Accept"
      = "application/json" := by
  refine ⟨⟨fun h => ?_, fun h => ?_⟩, rfl⟩
  · simp [Request.WithJSONResult, h]
  · simp [Request.WithJSONResult, h]

/-- C2 witness: both branches at concrete builders — a fresh builder gets
`Accept: application/json`; a builder with `Accept: text/html` is returned
unchanged. -/
theorem withJSONResult_accept_header_w :
    (New.WithJSONResult decFail).req
      = some { New with header := Header.set New.header "Accept" jsonMIME } ∧
    ((New.WithAccept "text/html").WithJSONResult decFail).req
      = some (New.WithAccept "text/html") :=
  ⟨(withJSONResult_accept_header New decFail).1.1 rfl,
   (withJSONResult_accept_header (New.WithAccept "text/html") decFail).1.2
     (by decide)⟩

/-- C3: when a timeout override was set via `WithTimeout`, `Do` assigns that
duration to the timeout field of the client resolved from the context — the
post-call client state is the resolved client with its timeout field
overwritten, the mutation the claim says persists for other users of the
instance; when no override was set, the resolved client is left unchanged
(whatever the construction outcome). -/
theorem do_timeout_client_mutation (r : Request) (ctx : Option HTTPClient)
    (method url : String)
    (transport : HTTPRequest → HTTPClient → Except String HTTPResponse) :
    (∀ d, r.timeout = some d →
      (r.Do ctx method url none transport).clientAfter
        = { clientFromContext ctx with Timeout := d }) ∧
    (r.timeout = none → ∀ newReqErr,
      (r.Do ctx method url newReqErr transport).clientAfter
        = clientFromContext ctx) := by
  constructor
  · intro d hd
    simp [Request.Do, hd]
  · intro h newReqErr
    cases newReqErr <;> simp [Request.Do, h]

/-- C3 witness: a five-nanosecond override lands in the resolved default
client's timeout field; with no override the default client is unchanged. -/
theorem do_timeout_client_mutation_w :
    ((New.WithTimeout 5).Do none "POST" "http://localhost" none
        (constTransport (Except.ok []))).clientAfter = { Timeout := 5 } ∧
    (New.Do none "GET" "http://localhost" none
        (constTransport (Except.ok []))).clientAfter = clientFromContext none :=
  ⟨(do_timeout_client_mutation (New.WithTimeout 5) none "POST" "http://localhost"
      (constTransport (Except.ok []))).1 5 rfl,
   (do_timeout_client_mutation New none "GET" "http://localhost"
      (constTransport (Except.ok []))).2 rfl none⟩

/-- C6: a wrapper whose underlying builder reference is absent fails with the
missing-request error and a never-obtained (hence never-closed) body — and
the outcome is the same constant for every transport, so no HTTP request is
issued; wrappers created through `WithResult`, `WithJSONResult` or
`WithXMLResult` always carry an underlying builder, so that branch is never
taken for them. -/
theorem withResult_do_missing_request :
    (∀ (u : Option (List Nat → Except String Unit)) (ctx : Option HTTPClient)
       (method url : String) (newReqErr : Option String)
       (transport : HTTPRequest → HTTPClient → Except String HTTPResponse),
      WithResult.Do { req := none, unmarshal := u } ctx method url newReqErr
          transport
        = { result := Except.error "request: missing request",
            bodyClosed := false }) ∧
    (∀ r : Request, (r.WithResult).req = some r) ∧
    (∀ (r : Request) (dec : List Nat → Except String Unit),
      ((r.WithJSONResult dec).req).isSome = true) ∧
    (∀ (r : Request) (dec : List Nat → Except String Unit),
      ((r.WithXMLResult dec).req).isSome = true) :=
  ⟨fun _ _ _ _ _ _ => rfl, fun _ => rfl, fun _ _ => rfl, fun _ _ => rfl⟩

/-- C4: when a decode function is set and it fails on the fully-read body
bytes, `WithResult.Do` fails with exactly the decode error — no result
object (and hence no raw bytes) is returned on that path. -/
theorem withResult_do_decode_failure (wr : WithResult) (ctx : Option HTTPClient)
    (method url : String) (newReqErr : Option String)
    (transport : HTTPRequest → HTTPClient → Except String HTTPResponse)
    {req : Request} {resp : HTTPResponse} {data : List Nat}
    {f : List Nat → Except String Unit} {e : String}
    (hreq : wr.req = some req)
    (hresp : (req.Do ctx method url newReqErr transport).resp = Except.ok resp)
    (hread : resp.bodyRead = Except.ok data)
    (hf : wr.unmarshal = some f)
    (hfe : f data = Except.error e) :
    (wr.Do ctx method url newReqErr transport).result = Except.error e := by
  simp [WithResult.Do, hreq, hresp, hread, hf, hfe]

/-- C4 witness: a JSON-result wrapper over an always-failing decoder, against
a transport whose body reads as `[123]`, fails with the wrapped decode
error. -/
theorem withResult_do_decode_failure_w :
    ((New.WithJSONResult decFail).Do none "GET" "http://localhost" none
        (constTransport (Except.ok [123]))).result
      = Except.error "request: unmarshal JSON: bad" :=
  withResult_do_decode_failure (New.WithJSONResult decFail) none "GET"
    "http://localhost" none (constTransport (Except.ok [123])) rfl rfl rfl rfl rfl

/-- C5: whenever the underlying builder's send succeeds, the response body
stream is closed before `WithResult.Do` returns, on every path (read
success, read failure, decode failure); and a body-read failure is surfaced
as an error wrapping the underlying failure behind the read-stage message. -/
theorem withResult_do_closes_body (wr : WithResult) (ctx : Option HTTPClient)
    (method url : String) (newReqErr : Option String)
    (transport : HTTPRequest → HTTPClient → Except String HTTPResponse)
    {req : Request} {resp : HTTPResponse}
    (hreq : wr.req = some req)
    (hresp : (req.Do ctx method url newReqErr transport).resp = Except.ok resp) :
    (wr.Do ctx method url newReqErr transport).bodyClosed = true ∧
    (∀ e, resp.bodyRead = Except.error e →
      (wr.Do ctx method url newReqErr transport).result
        = Except.error ("request: read response body: " ++ e)) := by
  constructor
  · rcases hb : resp.bodyRead with e | data
    · simp [WithResult.Do, hreq, hresp, hb]
    · rcases hu : wr.unmarshal with _ | f
      · simp [WithResult.Do, hreq, hresp, hb, hu]
      · rcases hfd : f data with e2 | u
        · simp [WithResult.Do, hreq, hresp, hb, hu, hfd]
        · simp [WithResult.Do, hreq, hresp, hb, hu, hfd]
  · intro e he
    simp [WithResult.Do, hreq, hresp, he]

/-- C5 witness: a plain result wrapper against a transport whose body read
fails with `io` closes the body and fails with the read-stage wrapping. -/
theorem withResult_do_closes_body_w :
    ((New.WithResult).Do none "GET" "http://localhost" none
        (constTransport (Except.error "io"))).bodyClosed = true ∧
    ((New.WithResult).Do none "GET" "http://localhost" none
        (constTransport (Except.error "io"))).result
      = Except.error "request: read response body: io" := by
  have T := withResult_do_closes_body New.WithResult none "GET" "http://localhost"
    none (constTransport (Except.error "io")) rfl rfl
  exact ⟨T.1, T.2 "io" rfl⟩

/-- Reading the values of the single-value setter's result: the set key's
canonical class holds exactly the new value, all other keys are untouched. -/
theorem values_set_header (h : Header) (k v k0 : String) :
    Header.values (Header.set h k v) k0
      = if canonicalMIMEHeaderKey k0 = canonicalMIMEHeaderKey k then [v]
        else Header.values h k0 := rfl

/-- Reading the values of the multi-value setter's result: the added key's
canonical class gains the new value at the end, all other keys untouched. -/
theorem values_add_header (h : Header) (k v k0 : String) :
    Header.values (Header.add h k v) k0
      = if canonicalMIMEHeaderKey k0 = canonicalMIMEHeaderKey k
        then Header.values h k0 ++ [v]
        else Header.values h k0 := rfl

/-- C7: after any nonempty sequence of `WithHeader` calls whose keys all
canonicalize like the reading key, a read returns exactly one value — the
value of the last call — whatever casing was used to set and to read. -/
theorem withHeader_last_set_wins (r : Request) (ps : List (String × String))
    (k : String) (p : String × String)
    (hc : ∀ q ∈ ps, canonicalMIMEHeaderKey q.1 = canonicalMIMEHeaderKey k)
    (hl : ps.getLast? = some p) :
    Header.values (applyWithHeaderCalls r ps).header k = [p.2] ∧
    Header.get (applyWithHeaderCalls r ps).header k = p.2 := by
  suffices hv : Header.values (applyWithHeaderCalls r ps).header k = [p.2] by
    refine ⟨hv, ?_⟩
    show (Header.values (applyWithHeaderCalls r ps).header k).headD "" = p.2
    rw [hv]
    rfl
  revert hc hl
  induction ps generalizing r with
  | nil =>
    intro hc hl
    simp at hl
  | cons q rest ih =>
    intro hc hl
    rcases rest with _ | ⟨q2, rest2⟩
    · simp at hl
      subst hl
      have hq := hc q (by simp)
      show Header.values (Header.set r.header q.1 q.2) k = [q.2]
      rw [values_set_header, hq, if_pos rfl]
    · rw [List.getLast?_cons_cons] at hl
      exact ih (r.WithHeader q.1 q.2)
        (fun x hx => hc x (List.mem_cons_of_mem _ hx)) hl

/-- C7 witness: setting via `accept` then `ACCEPT` and reading via `Accept`
yields exactly the last value. -/
theorem withHeader_last_set_wins_w :
    Header.values (applyWithHeaderCalls New
        [("accept", "x"), ("ACCEPT", "y")]).header "Accept" = ["y"] ∧
    Header.get (applyWithHeaderCalls New
        [("accept", "x"), ("ACCEPT", "y")]).header "Accept" = "y" :=
  withHeader_last_set_wins New [("accept", "x"), ("ACCEPT", "y")] "Accept"
    ("ACCEPT", "y") (by decide) rfl

/-- C8: after any sequence of `WithMultiValuedHeader` calls whose keys all
canonicalize like the reading key, a read returns every previously stored
value followed by all added values, in exactly the order they were added. -/
theorem withMultiValuedHeader_appends (r : Request)
    (ps : List (String × String)) (k : String)
    (hc : ∀ q ∈ ps, canonicalMIMEHeaderKey q.1 = canonicalMIMEHeaderKey k) :
    Header.values (applyAddHeaderCalls r ps).header k
      = Header.values r.header k ++ ps.map Prod.snd := by
  revert hc
  induction ps generalizing r with
  | nil =>
    intro hc
    simp [applyAddHeaderCalls]
  | cons q rest ih =>
    intro hc
    have hq := hc q (by simp)
    show Header.values
        (applyAddHeaderCalls (r.WithMultiValuedHeader q.1 q.2) rest).header k = _
    rw [ih (r.WithMultiValuedHeader q.1 q.2)
      (fun x hx => hc x (List.mem_cons_of_mem _ hx))]
    show Header.values (Header.add r.header q.1 q.2) k ++ _ = _
    rw [values_add_header, hq, if_pos rfl]
    simp

/-- C8 witness: three adds under differently-cased spellings of `Accept`,
read back under yet another spelling, give all three values in order. -/
theorem withMultiValuedHeader_appends_w :
    Header.values (applyAddHeaderCalls New
        [("accept", "a"), ("Accept", "b"), ("ACCEPT", "c")]).header "accept"
      = ["a", "b", "c"] :=
  withMultiValuedHeader_appends New
    [("accept", "a"), ("Accept", "b"), ("ACCEPT", "c")] "accept" (by decide)

/-- One body-setting call installs exactly its body source. -/
theorem body_applyBodyCall (r : Request) (c : BodyCall) :
    (applyBodyCall r c).body = some (bodyOfCall c) := by
  cases c <;> rfl

/-- One body-setting call leaves `Content-Type` at the call's MIME type, or
untouched for a plain `WithBody`. -/
theorem contentType_applyBodyCall (r : Request) (c : BodyCall) :
    Header.get (applyBodyCall r c).header "Content-Type"
      = match ctOfCall c with
        | some m => m
        | none => Header.get r.header "Content-Type" := by
  cases c <;> rfl

/-- After a sequence of body-setting calls, `Content-Type` reflects the most
recent call that sets one (or the starting value if none does). -/
theorem contentType_applyBodyCalls (r : Request) (cs : List BodyCall) :
    Header.get (applyBodyCalls r cs).header "Content-Type"
      = lastCTFrom (Header.get r.header "Content-Type") cs := by
  induction cs generalizing r with
  | nil => rfl
  | cons c rest ih =>
    show Header.get (applyBodyCalls (applyBodyCall r c) rest).header
        "Content-Type" = _
    rw [ih (applyBodyCall r c), contentType_applyBodyCall]
    rfl

/-- After a nonempty sequence of body-setting calls, the builder's body is
the last call's. -/
theorem body_applyBodyCalls (r : Request) (cs : List BodyCall) (c : BodyCall)
    (hl : cs.getLast? = some c) :
    (applyBodyCalls r cs).body = some (bodyOfCall c) := by
  revert hl
  induction cs generalizing r with
  | nil =>
    intro hl
    simp at hl
  | cons q rest ih =>
    intro hl
    rcases rest with _ | ⟨q2, rest2⟩
    · simp at hl
      subst hl
      exact body_applyBodyCall r q
    · rw [List.getLast?_cons_cons] at hl
      exact ih (applyBodyCall r q) hl

/-- C10: over any nonempty sequence of body-setting calls, the body the
terminal send hands to the transport is the one installed by the most recent
call — each call overwrites the previous body source — while `Content-Type`
reflects only the most recent call that sets it, so a later `WithBody`
leaves a `Content-Type` installed by an earlier `WithJSONBody`/`WithXMLBody`
in place. -/
theorem bodyCalls_last_wins (r : Request) (cs : List BodyCall) (c : BodyCall)
    (hl : cs.getLast? = some c) :
    (applyBodyCalls r cs).body = some (bodyOfCall c) ∧
    Header.get (applyBodyCalls r cs).header "Content-Type"
      = lastCTFrom (Header.get r.header "Content-Type") cs ∧
    (∀ (ctx : Option HTTPClient) (method url : String)
       (transport : HTTPRequest → HTTPClient → Except String HTTPResponse),
      ((applyBodyCalls r cs).Do ctx method url none transport).sentRequest
        = some { method := method, url := url,
                 reqHeader := (applyBodyCalls r cs).header,
                 reqBody := some (bodyOfCall c) }) := by
  refine ⟨body_applyBodyCalls r cs c hl, contentType_applyBodyCalls r cs, ?_⟩
  intro ctx method url transport
  simp [Request.Do, body_applyBodyCalls r cs c hl]

/-- C10 witness: `WithJSONBody` then `WithBody` leaves the raw reader as body
and `application/json` as `Content-Type`. -/
theorem bodyCalls_last_wins_w :
    (applyBodyCalls New [BodyCall.withJSONBody 1, BodyCall.withBody 2]).body
      = some (Body.reader 2) ∧
    Header.get (applyBodyCalls New
        [BodyCall.withJSONBody 1, BodyCall.withBody 2]).header "Content-Type"
      = "application/json" := by
  have T := bodyCalls_last_wins New
    [BodyCall.withJSONBody 1, BodyCall.withBody 2] (BodyCall.withBody 2) rfl
  exact ⟨T.1, T.2.1⟩

end RequestPkg
